import Mathlib

/-!
Shallow embedding of the objregex engine (src/objregex.py): a regex-like
pattern matcher over generic sequences.  Python ints are modelled as ℤ,
Python lists as List, a raised NoMoreItems exception as an explicit
constructor, and Optional values as Option.
-/

set_option autoImplicit false

variable {α : Type}

/-- The match-state class of the source (class Match, lines 9-65): a span
over a backing list of items.  The field named end in the source is named
end_ here because end is a Lean keyword. -/
structure Match (α : Type) where
  items : List α
  start : ℤ
  end_ : ℤ
deriving DecidableEq

/-- Python list indexing l[i] with negative-index wrap-around; none models
an IndexError (reachable only for i < -len(l)). -/
def pyGet (l : List α) (i : ℤ) : Option α :=
  if 0 ≤ i then l[i.toNat]?
  else if 0 ≤ i + l.length then l[(i + l.length).toNat]?
  else none

/-- Match.has_next (source lines 24-29): end < len(items). -/
def Match.has_next (m : Match α) : Bool :=
  m.end_ < (m.items.length : ℤ)

/-- Match.next (source lines 31-38); none models the raised NoMoreItems. -/
def Match.next (m : Match α) : Option α :=
  if (m.items.length : ℤ) ≤ m.end_ then none else pyGet m.items m.end_

/-- Match.advance (source lines 55-59): same items and start, end + n. -/
def Match.advance (m : Match α) (n : ℤ) : Match α :=
  ⟨m.items, m.start, m.end_ + n⟩

/-- Python truthiness of a Match object: the class defines neither a
boolean conversion nor a length, so every instance is truthy.  Used by the
`if match:` tests in fullmatch and findall. -/
def Match.toBool (_ : Match α) : Bool := true

/-- The body of the method the source names with the equality dunder
misspelled as "equals" (line 61-62): field-wise equality (Python list
equality is element-wise value equality).  Python never invokes a method
of that name, so actual == on Match objects falls back to identity. -/
def Match.equals [DecidableEq α] (a b : Match α) : Bool :=
  a.items == b.items && a.start == b.start && a.end_ == b.end_

/-- The values a predicate matcher may return (MatcherResultType, line 68):
a bool, an int, a Match, or None. -/
inductive MResult (α : Type) where
  | rBool (b : Bool)
  | rInt (n : ℤ)
  | rMatch (m : Match α)
  | rNone

/-- Outcome of invoking a predicate: either it raised NoMoreItems while
reading past the end of the sequence (exhausted), or it returned a value. -/
inductive PredResult (α : Type) where
  | exhausted
  | ret (r : MResult α)

/-- A pattern element (MatcherType, line 69): a literal value, compared by
equality with the next item, or a predicate/step function. -/
inductive Matcher (α : Type) where
  | lit (c : α)
  | pred (f : Match α → PredResult α)

/-- Whether a matcher is a literal (the non-callable case of line 75). -/
def Matcher.isLit : Matcher α → Bool
  | .lit _ => true
  | .pred _ => false

/-- The step evaluator, source _test_one (lines 71-89).  A literal advances
by one iff has_next and the next item equals it.  For a predicate: a raised
NoMoreItems is caught and becomes failure; a returned Match is adopted
verbatim; False (== 0 in Python), 0 and None fail; True and a nonzero int n
advance the end by n (True counts as 1, since True + end is end + 1). -/
def testOne [DecidableEq α] : Matcher α → Match α → Option (Match α)
  | .lit c, m =>
    if m.has_next && m.next == some c then some (m.advance 1) else none
  | .pred f, m =>
    match f m with
    | .exhausted => none
    | .ret (.rMatch m') => some m'
    | .ret (.rBool b) => if b then some (m.advance 1) else none
    | .ret (.rInt n) => if n = 0 then none else some (m.advance n)
    | .ret .rNone => none

/-- The loop of _general_match (source lines 97-101): on the first failing
matcher it breaks, keeping the last successful state. -/
def genLoop [DecidableEq α] : List (Matcher α) → Match α → Match α
  | [], m => m
  | mt :: rest, m =>
    match testOne mt m with
    | none => m
    | some m' => genLoop rest m'

/-- The sequential matcher, source _general_match (lines 91-101).  Despite
its Optional[Match] annotation it always returns a Match, namely the last
successful state. -/
def generalMatch [DecidableEq α] (ms : List (Matcher α)) (items : List α)
    (s : ℤ) : Match α :=
  genLoop ms ⟨items, s, s⟩

/-- any() from the source (lines 107-109): a lambda returning True
unconditionally.  Note it never reads match.next. -/
def anyM : Matcher α := .pred (fun _ => .ret (.rBool true))

/-- start() from the source (lines 111-113): returns match.end == 0. -/
def startM : Matcher α := .pred (fun m => .ret (.rBool (decide (m.end_ = 0))))

/-- end() from the source (lines 115-117): returns
match.end == len(match.items). -/
def endM : Matcher α :=
  .pred (fun m => .ret (.rBool (decide (m.end_ = (m.items.length : ℤ)))))

/-- optional(matcher) from the source (lines 124-129): its wrapper always
returns a Match (the old state on failure, the new one on success). -/
def optionalM [DecidableEq α] (mt : Matcher α) : Matcher α :=
  .pred (fun old => .ret (.rMatch
    (match testOne mt old with
     | none => old
     | some new => new)))

/-- The first loop of repeat's wrapper (source lines 137-140): the matcher
must succeed min_n times in a row, otherwise the whole wrapper fails. -/
def repeatFirst [DecidableEq α] (mt : Matcher α) : ℕ → Match α → Option (Match α)
  | 0, st => some st
  | n + 1, st =>
    match testOne mt st with
    | none => none
    | some st' => repeatFirst mt n st'

/-- The second loop of repeat's wrapper (source lines 141-145): up to a
bounded number of further greedy applications, stopping early on failure or
on a state equal to the current one.  The source compares with ==, which
for Match objects falls back to identity; for the pure matchers of this
model a structurally equal state behaves identically from then on and the
loop is bounded, so structural equality produces the same final state. -/
def repeatRest [DecidableEq α] (mt : Matcher α) : ℕ → Match α → Match α
  | 0, st => st
  | n + 1, st =>
    match testOne mt st with
    | none => st
    | some st' => if st' = st then st else repeatRest mt n st'

/-- repeat's wrapper (source lines 136-146).  The bound of the second loop
is max_n - min_n when max_n is given (an empty range when negative, which
truncated ℕ subtraction also gives), otherwise len(match.items) - match.end
computed from the state after the min_n required applications. -/
def repeatW [DecidableEq α] (mt : Matcher α) (minN : ℕ) (maxN : Option ℕ)
    (st : Match α) : Option (Match α) :=
  match repeatFirst mt minN st with
  | none => none
  | some st' =>
    let count : ℕ :=
      match maxN with
      | some mx => mx - minN
      | none => ((st'.items.length : ℤ) - st'.end_).toNat
    some (repeatRest mt count st')

/-- repeat(matcher, min_n, max_n) from the source (lines 131-147), as a
Matcher value: the wrapper returns None or a Match. -/
def repeatM [DecidableEq α] (mt : Matcher α) (minN : ℕ) (maxN : Option ℕ) :
    Matcher α :=
  .pred (fun st => .ret
    (match repeatW mt minN maxN st with
     | none => .rNone
     | some st' => .rMatch st'))

/-- one_or_more (source lines 149-151). -/
def oneOrMore [DecidableEq α] (mt : Matcher α) : Matcher α := repeatM mt 1 none

/-- zero_or_more (source lines 153-155). -/
def zeroOrMore [DecidableEq α] (mt : Matcher α) : Matcher α := repeatM mt 0 none

/-- fullmatch (source lines 157-162): run the sequential matcher from
offset 0 and return its state iff it is truthy (always) and has_next is
false. -/
def fullmatch [DecidableEq α] (ms : List (Matcher α)) (items : List α) :
    Option (Match α) :=
  let m := generalMatch ms items 0
  if m.toBool && !m.has_next then some m else none

/-- findall (source lines 164-175) as a fuel-indexed unrolling of the
generator loop: while start < len(items), attempt a match at start; if the
result is truthy (always, see Match.toBool) emit it and continue from its
end, otherwise continue from start + 1.  Each call to the fuel-successor
case is one iteration of the while loop; fuel 0 truncates the stream. -/
def findallAux [DecidableEq α] (ms : List (Matcher α)) (items : List α) :
    ℕ → ℤ → List (Match α)
  | 0, _ => []
  | fuel + 1, s =>
    if s < (items.length : ℤ) then
      let m := generalMatch ms items s
      if m.toBool then m :: findallAux ms items fuel m.end_
      else findallAux ms items fuel (s + 1)
    else []

/-- search (source lines 177-184): the first element produced by findall,
or None.  Python's next(findall(...)) always terminates: every non-yielding
iteration increases the scan offset by 1 from 0, so a first yield, if any,
happens within len(items) + 1 iterations; hence that much fuel determines
the first element exactly. -/
def search [DecidableEq α] (ms : List (Matcher α)) (items : List α) :
    Option (Match α) :=
  (findallAux ms items (items.length + 1) 0).head?

/-- k-fold application of a matcher through the step evaluator, failing as
soon as one application fails: the formal reading of "k consecutive
successful applications are possible from a state". -/
def iterMatcher [DecidableEq α] (mt : Matcher α) : ℕ → Match α → Option (Match α)
  | 0, st => some st
  | n + 1, st => (testOne mt st).bind (iterMatcher mt n)

/-- A matcher that never replaces the backing sequence of the state. -/
def PreservesItems [DecidableEq α] (mt : Matcher α) : Prop :=
  ∀ st st' : Match α, testOne mt st = some st' → st'.items = st.items

/-- A matcher that never moves the start (left edge) of the state. -/
def PreservesStart [DecidableEq α] (mt : Matcher α) : Prop :=
  ∀ st st' : Match α, testOne mt st = some st' → st'.start = st.start

/-! ## Theorems -/

/-- A literal matcher never replaces the backing sequence. -/
theorem lit_preservesItems [DecidableEq α] (c : α) :
    PreservesItems (Matcher.lit c) := by
  intro st st' h
  simp only [testOne] at h
  split at h
  · cases h
    rfl
  · cases h

/-- A literal matcher never moves the start of the state. -/
theorem lit_preservesStart [DecidableEq α] (c : α) :
    PreservesStart (Matcher.lit c) := by
  intro st st' h
  simp only [testOne] at h
  split at h
  · cases h
    rfl
  · cases h

/-- Every literal matcher preserves the backing sequence and the start. -/
theorem isLit_preserves [DecidableEq α] (mt : Matcher α)
    (h : mt.isLit = true) : PreservesItems mt ∧ PreservesStart mt := by
  cases mt with
  | lit c => exact ⟨lit_preservesItems c, lit_preservesStart c⟩
  | pred f => simp [Matcher.isLit] at h

/-- The sequential-matcher loop keeps the backing sequence when every
matcher in the list does. -/
theorem genLoop_items [DecidableEq α] :
    ∀ (M : List (Matcher α)) (st : Match α), (∀ mt ∈ M, PreservesItems mt) →
      (genLoop M st).items = st.items := by
  intro M
  induction M with
  | nil => intro st _; rfl
  | cons mt rest ih =>
    intro st hI
    simp only [genLoop]
    cases h : testOne mt st with
    | none => rfl
    | some st' =>
      rw [ih st' (fun m hm => hI m (List.mem_cons_of_mem mt hm)),
        hI mt (List.mem_cons_self mt rest) st st' h]

/-- The sequential-matcher loop keeps the start field when every matcher in
the list does. -/
theorem genLoop_start [DecidableEq α] :
    ∀ (M : List (Matcher α)) (st : Match α), (∀ mt ∈ M, PreservesStart mt) →
      (genLoop M st).start = st.start := by
  intro M
  induction M with
  | nil => intro st _; rfl
  | cons mt rest ih =>
    intro st hS
    simp only [genLoop]
    cases h : testOne mt st with
    | none => rfl
    | some st' =>
      rw [ih st' (fun m hm => hS m (List.mem_cons_of_mem mt hm)),
        hS mt (List.mem_cons_self mt rest) st st' h]

/-- C6: the anchors' success conditions (end == 0, end == len) match the
claim, but both are boolean-True successes, which the evaluator turns into
advance(1): they consume one position instead of zero. -/
theorem anchors_consume_one_item :
    testOne startM (⟨[7], 0, 0⟩ : Match ℤ) = some ⟨[7], 0, 1⟩ ∧
    testOne endM (⟨[7], 0, 1⟩ : Match ℤ) = some ⟨[7], 0, 2⟩ := by
  decide

/-- C7: any() applied at end == length succeeds with end = length + 1 (the
lambda returns True without reading next, so no exhaustion is raised),
while the claim says it fails there; at end < length it does consume
exactly one item. -/
theorem any_succeeds_past_end :
    testOne anyM (⟨[], 0, 0⟩ : Match ℤ) = some ⟨[], 0, 1⟩ ∧
    testOne anyM (⟨[9], 0, 0⟩ : Match ℤ) = some ⟨[9], 0, 1⟩ := by
  decide

/-- C5: an end-anchor step taken at end == length produces, and fullmatch
returns to the caller, a state with end == length + 1, violating the
claimed invariant end <= length(sequence). -/
theorem match_invariant_violated_by_end_anchor :
    fullmatch [Matcher.lit (3 : ℤ), endM] [3] = some ⟨[3], 0, 2⟩ ∧
    ¬ ((⟨[3], 0, 2⟩ : Match ℤ).end_ ≤ ((⟨[3], 0, 2⟩ : Match ℤ).items.length : ℤ)) := by
  decide

/-- C3: search([2,3], [1,2,3]) returns the truthy zero-width state of the
failed attempt at offset 0, not the [2,3] occurrence at start 1, end 3. -/
theorem search_two_three_returns_zero_width :
    search [Matcher.lit (2 : ℤ), Matcher.lit 3] [1, 2, 3] = some ⟨[1, 2, 3], 0, 0⟩ := by
  decide

/-- C8: the field-wise equality body that the source attaches to the
misnamed equality method evaluates to true on two states with identical
fields (Python, however, never dispatches == to that method). -/
theorem match_equals_body_is_field_equality :
    Match.equals (⟨[1], 0, 0⟩ : Match ℤ) ⟨[1], 0, 0⟩ = true := by
  decide

/-- C2: findall does not terminate on a failed literal: at scan offset 0
against [1] with pattern [2] the attempt fails, the truthy zero-width
partial state is emitted anyway, and the offset is set to its end, 0, so
every unit of fuel emits one more copy of the same zero-width match and the
loop never exits. -/
theorem findall_nonterminating_on_failed_literal :
    ∀ fuel : ℕ, findallAux [Matcher.lit (2 : ℤ)] [1] fuel 0 =
      List.replicate fuel ⟨[1], 0, 0⟩ := by
  intro fuel
  induction fuel with
  | zero => rfl
  | succ n ih =>
    have h : generalMatch [Matcher.lit (2 : ℤ)] [1] 0 = ⟨[1], 0, 0⟩ := by decide
    simp [findallAux, h, Match.toBool, List.replicate, ih]

/-- C4: whenever the sequential matcher run from offset 0 over a list of
literal matchers stops at a state whose end equals the sequence length
(whether the list was exhausted or a matcher failed there), fullmatch
reports success with that state; in particular fullmatch([1,2,3], [1,2])
succeeds with end 2, and fullmatch over any literal list succeeds on the
empty sequence with the zero-width state. -/
theorem fullmatch_succeeds_when_end_reaches_length :
    (∀ (M : List (Matcher ℤ)) (S : List ℤ), (∀ mt ∈ M, mt.isLit = true) →
      (generalMatch M S 0).end_ = (S.length : ℤ) →
      fullmatch M S = some (generalMatch M S 0)) ∧
    fullmatch [Matcher.lit 1, Matcher.lit 2, Matcher.lit 3] ([1, 2] : List ℤ) =
      some ⟨[1, 2], 0, 2⟩ ∧
    (∀ M : List (Matcher ℤ), (∀ mt ∈ M, mt.isLit = true) →
      fullmatch M ([] : List ℤ) = some ⟨[], 0, 0⟩) := by
  refine ⟨?_, by decide, ?_⟩
  · intro M S hM hend
    have hi : (generalMatch M S 0).items = S :=
      genLoop_items M ⟨S, 0, 0⟩ (fun mt hm => (isLit_preserves mt (hM mt hm)).1)
    simp [fullmatch, Match.toBool, Match.has_next, hend, hi]
  · intro M hM
    have hgm : generalMatch M ([] : List ℤ) 0 = ⟨[], 0, 0⟩ := by
      cases M with
      | nil => rfl
      | cons mt rest =>
        cases mt with
        | lit c => simp [generalMatch, genLoop, testOne, Match.has_next]
        | pred f => simpa [Matcher.isLit] using hM (.pred f) (by simp)
    simp [fullmatch, hgm, Match.toBool, Match.has_next]

/-- C4 witness: the general statement applied to the pattern [5] and the
sequence [5]. -/
theorem fullmatch_succeeds_when_end_reaches_length_inst :
    fullmatch [Matcher.lit (5 : ℤ)] [5] =
      some (generalMatch [Matcher.lit (5 : ℤ)] [5] 0) :=
  fullmatch_succeeds_when_end_reaches_length.1 [Matcher.lit 5] [5]
    (by decide) (by decide)

/-- The first loop of repeat's wrapper is exactly k-fold application of the
matcher through the step evaluator. -/
theorem repeatFirst_eq_iterMatcher {α : Type} [DecidableEq α] (mt : Matcher α) :
    ∀ (k : ℕ) (st : Match α), repeatFirst mt k st = iterMatcher mt k st := by
  intro k
  induction k with
  | zero => intro st; rfl
  | succ n ih =>
    intro st
    cases h : testOne mt st <;> simp [repeatFirst, iterMatcher, h, ih]

/-- C9: if k consecutive successful applications of the matcher are not
possible from a state, then applying repeat(matcher, min_n = k) through the
step evaluator fails entirely, for any max_n. -/
theorem repeat_fails_below_min {α : Type} [DecidableEq α] (mt : Matcher α)
    (k : ℕ) (maxN : Option ℕ) (st : Match α)
    (h : iterMatcher mt k st = none) :
    testOne (repeatM mt k maxN) st = none := by
  simp [repeatM, testOne, repeatW, repeatFirst_eq_iterMatcher, h]

/-- C9 witness: repeat(1, min_n = 2) fails on [1], where only one
application of the literal 1 is possible. -/
theorem repeat_fails_below_min_inst :
    testOne (repeatM (Matcher.lit (1 : ℤ)) 2 none) (⟨[1], 0, 0⟩ : Match ℤ) = none :=
  repeat_fails_below_min (Matcher.lit 1) 2 none ⟨[1], 0, 0⟩ (by decide)

/-- C10: a predicate invocation that raises the exhaustion signal is caught
by the step evaluator and becomes ordinary failure; consequently fullmatch,
search and the findall loop treat an always-exhausting matcher exactly like
an always-failing one — the signal never reaches the caller. -/
theorem exhaustion_caught_by_evaluator {α : Type} [DecidableEq α] :
    (∀ (f : Match α → PredResult α) (st : Match α),
      f st = PredResult.exhausted → testOne (Matcher.pred f) st = none) ∧
    (∀ (f g : Match α → PredResult α) (S : List α),
      (∀ st, f st = PredResult.exhausted) →
      (∀ st, g st = PredResult.ret MResult.rNone) →
      fullmatch [Matcher.pred f] S = fullmatch [Matcher.pred g] S ∧
      search [Matcher.pred f] S = search [Matcher.pred g] S ∧
      ∀ (fuel : ℕ) (s : ℤ),
        findallAux [Matcher.pred f] S fuel s = findallAux [Matcher.pred g] S fuel s) := by
  constructor
  · intro f st h
    simp [testOne, h]
  · intro f g S hf hg
    have ht : ∀ st : Match α,
        testOne (Matcher.pred f) st = testOne (Matcher.pred g) st := by
      intro st
      simp [testOne, hf st, hg st]
    have hgm : ∀ s : ℤ,
        generalMatch [Matcher.pred f] S s = generalMatch [Matcher.pred g] S s := by
      intro s
      simp only [generalMatch, genLoop]
      rw [ht]
    have hfa : ∀ (fuel : ℕ) (s : ℤ),
        findallAux [Matcher.pred f] S fuel s = findallAux [Matcher.pred g] S fuel s := by
      intro fuel
      induction fuel with
      | zero => intro s; rfl
      | succ n ih =>
        intro s
        simp only [findallAux, hgm, ih]
    exact ⟨by simp [fullmatch, hgm], by simp [search, hfa], hfa⟩

/-- C10 witness: the always-exhausting predicate fails as an ordinary
matcher at the empty initial state, and fullmatch over it on [4] agrees
with fullmatch over the plain always-failing predicate. -/
theorem exhaustion_caught_by_evaluator_inst :
    testOne (Matcher.pred (fun _ => PredResult.exhausted)) (⟨[], 0, 0⟩ : Match ℤ) = none ∧
    fullmatch [Matcher.pred (fun _ => PredResult.exhausted)] ([4] : List ℤ) =
      fullmatch [Matcher.pred (fun _ => PredResult.ret MResult.rNone)] [4] :=
  ⟨(@exhaustion_caught_by_evaluator ℤ _).1 _ _ rfl,
   ((@exhaustion_caught_by_evaluator ℤ _).2 _ _ [4] (fun _ => rfl) (fun _ => rfl)).1⟩

/-- Appending the end anchor to a pattern keeps the backing sequence and
the start of the final state, and the final end reaches the sequence length
iff it already did without the anchor (the anchor fires exactly at
end == length and then pushes end to length + 1; on a break before it, or
when it fails, the state is unchanged). -/
theorem genLoop_append_endM [DecidableEq α] :
    ∀ (M : List (Matcher α)) (st : Match α),
      (∀ mt ∈ M, PreservesItems mt) → (∀ mt ∈ M, PreservesStart mt) →
      (genLoop (M ++ [endM]) st).items = st.items ∧
      (genLoop (M ++ [endM]) st).start = st.start ∧
      (((st.items.length : ℤ) ≤ (genLoop (M ++ [endM]) st).end_) ↔
        ((st.items.length : ℤ) ≤ (genLoop M st).end_)) := by
  intro M
  induction M with
  | nil =>
    intro st _ _
    by_cases h : st.end_ = (st.items.length : ℤ)
    · refine ⟨?_, ?_, ?_⟩ <;>
        simp [genLoop, testOne, endM, h, Match.advance]
    · refine ⟨?_, ?_, ?_⟩ <;>
        simp [genLoop, testOne, endM, h, Match.advance]
  | cons mt rest ih =>
    intro st hI hS
    simp only [List.cons_append, genLoop]
    cases h : testOne mt st with
    | none => simp
    | some st' =>
      have hi : st'.items = st.items := hI mt (List.mem_cons_self mt rest) st st' h
      have hs : st'.start = st.start := hS mt (List.mem_cons_self mt rest) st st' h
      obtain ⟨a, b, c⟩ := ih st' (fun m hm => hI m (List.mem_cons_of_mem mt hm))
        (fun m hm => hS m (List.mem_cons_of_mem mt hm))
      rw [hi] at a c
      rw [hs] at b
      exact ⟨a, b, c⟩

/-- On a nonempty sequence, search returns the very first attempt of the
sequential matcher, at offset 0: the attempt's result is a Match object,
which is truthy, so the findall loop yields it immediately. -/
theorem search_eq_first_attempt [DecidableEq α] (ms : List (Matcher α))
    (S : List α) (h : S ≠ []) :
    search ms S = some (generalMatch ms S 0) := by
  have hl : 0 < S.length := List.length_pos.mpr h
  simp [search, findallAux, Match.toBool, Int.natCast_pos, hl]

/-- C1 (amended): for matchers that preserve the backing sequence and the
start field (as all literals and built-ins do) and a nonempty sequence S,
fullmatch(M, S) succeeds iff search(M + [end_of_sequence()], S) returns a
match with start 0 and end at least length(S).  Equality with length(S)
cannot be required because the boolean-True end anchor consumes one
position when it fires, and the empty sequence must be excluded because
the findall loop then scans no offsets at all. -/
theorem fullmatch_iff_search_with_end_anchor {α : Type} [DecidableEq α]
    (M : List (Matcher α)) (S : List α) (hne : S ≠ [])
    (hI : ∀ mt ∈ M, PreservesItems mt) (hS : ∀ mt ∈ M, PreservesStart mt) :
    (fullmatch M S).isSome = true ↔
      ∃ r : Match α, search (M ++ [endM]) S = some r ∧ r.start = 0 ∧
        (S.length : ℤ) ≤ r.end_ := by
  have hsearch := search_eq_first_attempt (M ++ [endM]) S hne
  obtain ⟨hi, hs, hiff⟩ := genLoop_append_endM M ⟨S, 0, 0⟩ hI hS
  have hfull : (fullmatch M S).isSome = true ↔
      (S.length : ℤ) ≤ (genLoop M (⟨S, 0, 0⟩ : Match α)).end_ := by
    have hitems : (genLoop M (⟨S, 0, 0⟩ : Match α)).items = S := genLoop_items M _ hI
    simp only [fullmatch, generalMatch, Match.toBool, Bool.true_and]
    cases h : (genLoop M (⟨S, 0, 0⟩ : Match α)).has_next with
    | false =>
      simp only [Match.has_next, hitems, decide_eq_false_iff_not, Int.not_lt] at h
      simpa using h
    | true =>
      simp only [Match.has_next, hitems, decide_eq_true_eq] at h
      simp only [Bool.not_true, Bool.false_eq_true, if_false, Option.isSome_none,
        Bool.false_eq_true, false_iff, Int.not_le]
      exact h
  rw [hfull]
  constructor
  · intro h
    refine ⟨generalMatch (M ++ [endM]) S 0, hsearch, ?_, ?_⟩
    · simpa [generalMatch] using hs
    · exact hiff.mpr h
  · rintro ⟨r, hr, -, he⟩
    rw [hsearch] at hr
    have hgr : generalMatch (M ++ [endM]) S 0 = r := Option.some.inj hr
    rw [← hgr] at he
    exact hiff.mp he

/-- C1 witness: the amended equivalence at the literal pattern [5, 6] and
the sequence [5, 6], where both sides hold. -/
theorem fullmatch_iff_search_with_end_anchor_inst :
    (fullmatch [Matcher.lit (5 : ℤ), Matcher.lit 6] [5, 6]).isSome = true ↔
      ∃ r : Match ℤ,
        search ([Matcher.lit (5 : ℤ), Matcher.lit 6] ++ [endM]) [5, 6] = some r ∧
        r.start = 0 ∧ ((([5, 6] : List ℤ).length : ℤ) ≤ r.end_) :=
  fullmatch_iff_search_with_end_anchor _ _ (by decide)
    (by
      intro mt hmt
      have h : mt = Matcher.lit 5 ∨ mt = Matcher.lit 6 := by simpa using hmt
      rcases h with rfl | rfl
      · exact lit_preservesItems 5
      · exact lit_preservesItems 6)
    (by
      intro mt hmt
      have h : mt = Matcher.lit 5 ∨ mt = Matcher.lit 6 := by simpa using hmt
      rcases h with rfl | rfl
      · exact lit_preservesStart 5
      · exact lit_preservesStart 6)

/-- C1 counterexample: at M = [1] and S = [1], fullmatch succeeds, but
search(M + [end_of_sequence()], S) returns a match whose end is 2, not
length(S) = 1 (the end anchor consumed one extra position), so the claimed
equivalence with "end equals length(S)" is false as stated. -/
theorem fullmatch_search_claim_false_at_singleton :
    ¬ (((fullmatch [Matcher.lit (1 : ℤ)] [1]).isSome = true) ↔
      ∃ r : Match ℤ, search ([Matcher.lit (1 : ℤ)] ++ [endM]) [1] = some r ∧
        r.start = 0 ∧ r.end_ = (([1] : List ℤ).length : ℤ)) := by
  intro hiff
  obtain ⟨r, hr, -, he⟩ := hiff.mp (by decide)
  have hv : search ([Matcher.lit (1 : ℤ)] ++ [endM]) [1] = some ⟨[1], 0, 2⟩ := by
    decide
  rw [hv] at hr
  have hgr : (⟨[1], 0, 2⟩ : Match ℤ) = r := Option.some.inj hr
  rw [← hgr] at he
  exact absurd he (by decide)
